import Mathlib

/-!
Verification of the bb8 asynchronous connection pool (`src/lib.rs`) against
its natural-language specification.  The pool's lock-guarded mutable record
`PoolInternals` and the routines that mutate it (`put_idle_conn`,
`add_connection`, `replenish_idle_connections_locked`, `drop_connections`,
`reap_connections`, the checkout fast path of `get_idle_connection`, the
slow-path waiter enqueue and the return path of `Pool::run`) are embedded
shallowly: instants are naturals (Rust `Instant` differences become truncated
natural subtraction, which agrees with the source wherever the source does
not panic), `u32` counters are naturals (all arithmetic below stays within
the non-underflow domain guarded by the locks), and each critical section of
the source becomes one atomic state-transition function.
-/

namespace BB8

/-- Connection record from the source: the managed resource (identified here
by a number, since the pool is agnostic to it) plus its immutable birth
instant (`struct Conn { conn, birth }`). -/
structure Conn where
  connId : Nat
  birth : Nat
  deriving DecidableEq

/-- Idle record from the source: a connection record plus the instant it was
most recently placed back into the idle queue
(`struct IdleConn { conn, idle_start }`). -/
structure IdleConn where
  conn : Conn
  idle_start : Nat
  deriving DecidableEq

/-- A waiter is a oneshot sender in the source
(`oneshot::Sender<Conn<C>>`); `live` records whether its receiver is still
alive, which in the source decides whether `send` succeeds. -/
structure Waiter where
  id : Nat
  live : Bool
  deriving DecidableEq

/-- The configuration fields of `Builder` that the lock-guarded routines
consult.  Durations are naturals; the timing-only fields
(`connection_timeout`, `reaper_rate`) and the error sink are not part of the
state machine embedded here. -/
structure Statics where
  max_size : Nat
  min_idle : Option Nat
  test_on_check_out : Bool
  max_lifetime : Option Nat
  idle_timeout : Option Nat

/-- The pool data protected by the single lock
(`struct PoolInternals { waiters, conns, num_conns, pending_conns }`).
`waiters` and `conns` are FIFO: the head of the list is the front of the
`VecDeque`. -/
structure PoolInternals where
  waiters : List Waiter
  conns : List IdleConn
  num_conns : Nat
  pending_conns : Nat
  deriving DecidableEq

/-- Result of the delivery loop inside `PoolInternals::put_idle_conn`,
instrumented with the waiter that received the connection (if any) and the
number of loop iterations executed. -/
structure PutIdleResult where
  waiters : List Waiter
  conns : List IdleConn
  delivered : Option Nat
  iters : Nat
  deriving DecidableEq

/-- The `loop` body of `PoolInternals::put_idle_conn`: pop the front waiter;
if its receiver is live, send the connection to it and stop; if the receiver
is gone, the popped waiter stays discarded and the loop retries; when the
waiter queue empties, push the record at the tail of the idle queue. -/
def put_idle_loop (conns : List IdleConn) (c : IdleConn) : List Waiter → PutIdleResult
  | [] => { waiters := [], conns := conns ++ [c], delivered := none, iters := 1 }
  | w :: ws =>
    if w.live then
      { waiters := ws, conns := conns, delivered := some w.id, iters := 1 }
    else
      let r := put_idle_loop conns c ws
      { r with iters := r.iters + 1 }

/-- `PoolInternals::put_idle_conn`: run the delivery loop and store the
resulting waiter and idle queues back into the state. -/
def put_idle_conn (s : PoolInternals) (c : IdleConn) : PoolInternals :=
  let r := put_idle_loop s.conns c s.waiters
  { s with waiters := r.waiters, conns := r.conns }

/-- The state effect of `add_connection`: under the held lock it increments
`pending_conns` by one (a connect task is spawned outside the state). -/
def addConnectionPending (s : PoolInternals) : PoolInternals :=
  { s with pending_conns := s.pending_conns + 1 }

/-- The launch count computed by `Pool::replenish_idle_connections_locked`:
the range `idle..max(idle, min(desired, idle + slots_available))` has this
many elements, where `slots_available = max_size - num_conns - pending_conns`
and `desired = min_idle.unwrap_or(0)`. -/
def toLaunchCount (st : Statics) (s : PoolInternals) : Nat :=
  max s.conns.length
    (min (st.min_idle.getD 0)
      (s.conns.length + (st.max_size - s.num_conns - s.pending_conns))) -
    s.conns.length

/-- `Pool::replenish_idle_connections_locked`: call `add_connection` once per
element of the launch range, each call bumping `pending_conns` under the
already-held lock. -/
def replenish_idle_connections_locked (st : Statics) (s : PoolInternals) : PoolInternals :=
  addConnectionPending^[toLaunchCount st s] s

/-- The conditional replenishment pattern appearing at every site that frees
a slot: `if num_conns + pending_conns < max_size { replenish }`. -/
def maybeReplenish (st : Statics) (s : PoolInternals) : PoolInternals :=
  if s.num_conns + s.pending_conns < st.max_size then
    replenish_idle_connections_locked st s
  else s

/-- `drop_connections` (state part): subtract the number of dropped records
from `num_conns`, then replenish if the population fell below `max_size`.
The records themselves are destroyed outside the state. -/
def drop_connections (st : Statics) (s : PoolInternals) (k : Nat) : PoolInternals :=
  maybeReplenish st { s with num_conns := s.num_conns - k }

/-- The reaping test from the closure in `reap_connections`: a record is
reaped when `idle_timeout` is set and `now - idle_start >= timeout`, or when
`max_lifetime` is set and `now - birth >= lifetime`. -/
def reapPredicate (st : Statics) (now : Nat) (c : IdleConn) : Bool :=
  (match st.idle_timeout with
    | some timeout => decide (timeout ≤ now - c.idle_start)
    | none => false) ||
  (match st.max_lifetime with
    | some lifetime => decide (lifetime ≤ now - c.conn.birth)
    | none => false)

/-- Modelled from the spec: the `partition2` helper lives in the
repository's `util` module, which is not present under `src/`; per the spec
(Reaper, step 2) it partitions the idle sequence into the records to drop
(those satisfying the predicate) and the records to keep, preserving order. -/
def partition2 {α : Type} (p : α → Bool) (l : List α) : List α × List α :=
  (l.filter p, l.filter (fun a => !p a))

/-- `reap_connections`: partition the idle queue by the reaping test, keep
the survivors, and route the dropped records through `drop_connections`
(which decrements `num_conns` by their number and possibly replenishes). -/
def reap_connections (st : Statics) (s : PoolInternals) (now : Nat) : PoolInternals :=
  drop_connections st
    { s with conns := (partition2 (reapPredicate st now) s.conns).2 }
    (partition2 (reapPredicate st now) s.conns).1.length

/-- Outcome of one iteration of the `loop_fn` body in
`get_idle_connection`. -/
inductive CheckoutOutcome where
  | success (c : Conn)
  | retry
  | noIdle
  deriving DecidableEq

/-- The validity test at the end of the checkout fast path, run on the state
`s2` left after the pop-and-replenish critical section: when
`test_on_check_out` is set, `is_valid` (whose verdict is the `valid` oracle
parameter) decides between breaking out with the record -- preserving its
original birth -- and disposing of the failed connection via
`drop_connections` under the re-acquired lock before continuing the loop. -/
def checkoutTest (st : Statics) (s2 : PoolInternals) (c : IdleConn) (valid : Bool) :
    PoolInternals × CheckoutOutcome :=
  if st.test_on_check_out then
    if valid then (s2, CheckoutOutcome.success c.conn)
    else (drop_connections st s2 1, CheckoutOutcome.retry)
  else (s2, CheckoutOutcome.success c.conn)

/-- One iteration of the `loop_fn` body of `get_idle_connection`: pop the
idle head (erroring out to the slow path when there is none), replenish if a
slot is free, then run the validity test. -/
def get_idle_connection_step (st : Statics) (s : PoolInternals) (valid : Bool) :
    PoolInternals × CheckoutOutcome :=
  match s.conns with
  | [] => (s, CheckoutOutcome.noIdle)
  | c :: rest => checkoutTest st (maybeReplenish st { s with conns := rest }) c valid

/-- The slow-path critical section in `Pool::run`: push a fresh waiter at
the tail of the waiter queue and, if the population is below `max_size`,
launch one opportunistic connect via `add_connection`.  Note that this
section performs no check of the idle queue: the observation that `conns`
was empty happened in the earlier, already-released critical section of
`get_idle_connection`. -/
def slowPathEnqueue (st : Statics) (s : PoolInternals) (w : Waiter) : PoolInternals :=
  if s.num_conns + s.pending_conns < st.max_size then
    addConnectionPending { s with waiters := s.waiters ++ [w] }
  else { s with waiters := s.waiters ++ [w] }

/-- bb8's error type `RunError`: a user error or a checkout timeout. -/
inductive RunError (E : Type) where
  | user (e : E)
  | timedOut
  deriving DecidableEq

/-- Where the fallible bookkeeping future produced inside a critical section
is routed: `errorSink` models `spawn(sink_error(f))`, `discardedFuture`
models binding the returned future to `_`, which drops it so that any error
it would carry (a connect failure during the triggered replenishment) is
lost. -/
inductive ErrRoute where
  | errorSink
  | discardedFuture
  deriving DecidableEq

/-- The return-path critical section of `Pool::run`: when `has_broken`
reported true the connection is disposed through `drop_connections` -- whose
returned future the source binds to `_`, discarding it together with any
bookkeeping error it would carry -- and otherwise the connection is made
idle again with a fresh `idle_start` (birth preserved) and routed through
`put_idle_conn`. -/
def run_return (st : Statics) (s : PoolInternals) (broken : Bool) (c : Conn) (now : Nat) :
    PoolInternals × Option ErrRoute :=
  if broken then (drop_connections st s 1, some ErrRoute.discardedFuture)
  else (put_idle_conn s { conn := c, idle_start := now }, none)

/-- The completion of `Pool::run` after the user's work resolved: the user's
result is split from the surfaced connection, the connection is fed through
the return path, and the user's own result -- `Ok(t)` or the user error
wrapped as `RunError::User` -- is what the caller receives. -/
def run_complete {T E : Type} (st : Statics) (s : PoolInternals) (broken : Bool) (now : Nat)
    (r : (T × Conn) ⊕ (E × Conn)) :
    (PoolInternals × Option ErrRoute) × Except (RunError E) T :=
  match r with
  | Sum.inl (t, conn) => (run_return st s broken conn now, Except.ok t)
  | Sum.inr (e, conn) => (run_return st s broken conn now, Except.error (RunError.user e))

/-- Mark the waiter at position `i` dead: models the receiver of an enqueued
waiter being dropped by a caller timeout or cancellation. -/
def markDead : List Waiter → Nat → List Waiter
  | [], _ => []
  | w :: ws, 0 => { w with live := false } :: ws
  | w :: ws, n + 1 => w :: markDead ws n

/-- One critical section of the source, as an atomic transition on the
lock-guarded state.  Every mutation of `PoolInternals` in the source is one
of these:
* `checkoutFast`: the fast-path section of `get_idle_connection` (pop the
  idle head, replenish if below `max_size`);
* `disposeOne`: the `drop_connections` section run for an `is_valid` failure
  during checkout or a `has_broken` connection on return;
* `enqueueWaiter`: the slow-path section of `Pool::run`;
* `connectSuccess` / `connectFailure`: resolution of a pending connect
  inside `add_connection`'s spawned task (the task's own earlier increment
  guarantees `pending_conns` is positive);
* `returnIdle`: the return-path section of `Pool::run` for an unbroken
  connection;
* `reapStep`: one reaper tick (the dropped records are idle, hence counted
  in `num_conns`, which justifies the guard);
* `replenishStep`: the standalone replenishment run at pool construction;
* `waiterDies`: a waiting caller times out or is cancelled, dropping its
  receiver. -/
inductive Step (st : Statics) : PoolInternals → PoolInternals → Prop where
  | checkoutFast (s : PoolInternals) (c : IdleConn) (rest : List IdleConn)
      (hc : s.conns = c :: rest) :
      Step st s (maybeReplenish st { s with conns := rest })
  | disposeOne (s : PoolInternals) (h : 1 ≤ s.num_conns) :
      Step st s (drop_connections st s 1)
  | enqueueWaiter (s : PoolInternals) (w : Waiter) :
      Step st s (slowPathEnqueue st s w)
  | connectSuccess (s : PoolInternals) (i now : Nat) (h : 1 ≤ s.pending_conns) :
      Step st s (put_idle_conn
        { s with pending_conns := s.pending_conns - 1, num_conns := s.num_conns + 1 }
        { conn := { connId := i, birth := now }, idle_start := now })
  | connectFailure (s : PoolInternals) (h : 1 ≤ s.pending_conns) :
      Step st s { s with pending_conns := s.pending_conns - 1 }
  | returnIdle (s : PoolInternals) (c : Conn) (now : Nat) :
      Step st s (put_idle_conn s { conn := c, idle_start := now })
  | reapStep (s : PoolInternals) (now : Nat)
      (h : (partition2 (reapPredicate st now) s.conns).1.length ≤ s.num_conns) :
      Step st s (reap_connections st s now)
  | replenishStep (s : PoolInternals) :
      Step st s (replenish_idle_connections_locked st s)
  | waiterDies (s : PoolInternals) (i : Nat) :
      Step st s { s with waiters := markDead s.waiters i }

/-- The pool states reachable from the freshly built pool (`new_inner`
starts with empty queues and zero counters) by the critical sections of the
source. -/
inductive Reachable (st : Statics) : PoolInternals → Prop where
  | init : Reachable st { waiters := [], conns := [], num_conns := 0, pending_conns := 0 }
  | step {s s' : PoolInternals} : Reachable st s → Step st s s' → Reachable st s'

/-- A fixed small configuration used by the concrete witnesses below:
`max_size = 2`, `min_idle = 1`, reaping disabled. -/
def stA : Statics :=
  { max_size := 2, min_idle := some 1, test_on_check_out := true
    max_lifetime := none, idle_timeout := none }

theorem iterate_addConnectionPending (n : Nat) (s : PoolInternals) :
    addConnectionPending^[n] s = { s with pending_conns := s.pending_conns + n } := by
  induction n generalizing s with
  | zero => rfl
  | succ n ih =>
    rw [Function.iterate_succ_apply, ih]
    simp only [addConnectionPending]
    congr 1
    omega

theorem replenish_eq (st : Statics) (s : PoolInternals) :
    replenish_idle_connections_locked st s =
      { s with pending_conns := s.pending_conns + toLaunchCount st s } :=
  iterate_addConnectionPending _ _

theorem toLaunchCount_le (st : Statics) (s : PoolInternals) :
    toLaunchCount st s ≤ st.max_size - s.num_conns - s.pending_conns := by
  unfold toLaunchCount
  omega

theorem replenish_P1 (st : Statics) (s : PoolInternals)
    (h : s.num_conns + s.pending_conns ≤ st.max_size) :
    (replenish_idle_connections_locked st s).num_conns +
      (replenish_idle_connections_locked st s).pending_conns ≤ st.max_size := by
  rw [replenish_eq]
  have := toLaunchCount_le st s
  simp only
  omega

theorem maybeReplenish_P1 (st : Statics) (s : PoolInternals)
    (h : s.num_conns + s.pending_conns ≤ st.max_size) :
    (maybeReplenish st s).num_conns + (maybeReplenish st s).pending_conns ≤ st.max_size := by
  unfold maybeReplenish
  split
  · exact replenish_P1 st s h
  · exact h

theorem replenish_minidle (st : Statics) (s : PoolInternals)
    (h : (replenish_idle_connections_locked st s).num_conns +
      (replenish_idle_connections_locked st s).pending_conns < st.max_size) :
    st.min_idle.getD 0 ≤ (replenish_idle_connections_locked st s).conns.length +
      (replenish_idle_connections_locked st s).pending_conns := by
  rw [replenish_eq] at h ⊢
  simp only at h ⊢
  unfold toLaunchCount at h ⊢
  generalize st.min_idle.getD 0 = d at h ⊢
  omega

theorem maybeReplenish_minidle (st : Statics) (s : PoolInternals)
    (h : (maybeReplenish st s).num_conns + (maybeReplenish st s).pending_conns < st.max_size) :
    st.min_idle.getD 0 ≤ (maybeReplenish st s).conns.length +
      (maybeReplenish st s).pending_conns := by
  unfold maybeReplenish at h ⊢
  split at h
  · rename_i hlt
    rw [if_pos hlt]
    exact replenish_minidle st s h
  · rename_i hge
    exact absurd h hge

theorem maybeReplenish_num (st : Statics) (s : PoolInternals) :
    (maybeReplenish st s).num_conns = s.num_conns := by
  unfold maybeReplenish
  split
  · rw [replenish_eq]
  · rfl

theorem maybeReplenish_conns (st : Statics) (s : PoolInternals) :
    (maybeReplenish st s).conns = s.conns := by
  unfold maybeReplenish
  split
  · rw [replenish_eq]
  · rfl

theorem maybeReplenish_waiters (st : Statics) (s : PoolInternals) :
    (maybeReplenish st s).waiters = s.waiters := by
  unfold maybeReplenish
  split
  · rw [replenish_eq]
  · rfl

theorem put_idle_conn_num (s : PoolInternals) (c : IdleConn) :
    (put_idle_conn s c).num_conns = s.num_conns := rfl

theorem put_idle_conn_pending (s : PoolInternals) (c : IdleConn) :
    (put_idle_conn s c).pending_conns = s.pending_conns := rfl

theorem drop_connections_num (st : Statics) (s : PoolInternals) (k : Nat) :
    (drop_connections st s k).num_conns = s.num_conns - k := by
  unfold drop_connections
  rw [maybeReplenish_num]

theorem drop_connections_conns (st : Statics) (s : PoolInternals) (k : Nat) :
    (drop_connections st s k).conns = s.conns := by
  unfold drop_connections
  rw [maybeReplenish_conns]

theorem drop_connections_P1 (st : Statics) (s : PoolInternals) (k : Nat)
    (h : s.num_conns + s.pending_conns ≤ st.max_size) :
    (drop_connections st s k).num_conns + (drop_connections st s k).pending_conns ≤
      st.max_size := by
  unfold drop_connections
  apply maybeReplenish_P1
  simp only
  omega

theorem markDead_ne_nil (ws : List Waiter) (i : Nat) (h : markDead ws i ≠ []) : ws ≠ [] := by
  cases ws with
  | nil => cases h rfl
  | cons w ws => exact List.cons_ne_nil _ _

theorem put_idle_loop_waiters_ne (conns : List IdleConn) (c : IdleConn) (ws : List Waiter)
    (h : (put_idle_loop conns c ws).waiters ≠ []) : ws ≠ [] := by
  cases ws with
  | nil => exact absurd rfl h
  | cons w ws => exact List.cons_ne_nil _ _

theorem put_idle_loop_conns_of_waiters_ne (conns : List IdleConn) (c : IdleConn)
    (ws : List Waiter) (h : (put_idle_loop conns c ws).waiters ≠ []) :
    (put_idle_loop conns c ws).conns = conns := by
  induction ws with
  | nil => exact absurd rfl h
  | cons w ws ih =>
    by_cases hl : w.live
    · simp [put_idle_loop, hl]
    · simp only [put_idle_loop, if_neg hl] at h ⊢
      exact ih h

/-- Claim C1: for every pool state reachable through the critical sections
of checkout, return, replenishment, connect resolution and reaping, the
number of live connections plus the number of in-flight connect attempts
never exceeds the configured maximum:
`num_conns + pending_conns ≤ max_size`. -/
theorem pool_counts_bounded (st : Statics) (s : PoolInternals) (h : Reachable st s) :
    s.num_conns + s.pending_conns ≤ st.max_size := by
  induction h with
  | init => exact Nat.zero_le _
  | step _ hs ih =>
    cases hs with
    | checkoutFast c rest hc =>
      exact maybeReplenish_P1 st _ ih
    | disposeOne h =>
      exact drop_connections_P1 st _ 1 ih
    | enqueueWaiter w =>
      unfold slowPathEnqueue
      split
      · simp only [addConnectionPending]
        omega
      · exact ih
    | connectSuccess i now h =>
      rw [put_idle_conn_num, put_idle_conn_pending]
      simp only
      omega
    | connectFailure h =>
      simp only
      omega
    | returnIdle c now =>
      rw [put_idle_conn_num, put_idle_conn_pending]
      exact ih
    | reapStep now h =>
      unfold reap_connections
      apply drop_connections_P1
      exact ih
    | replenishStep =>
      exact replenish_P1 st _ ih
    | waiterDies i =>
      exact ih

/-- Witness for C1: the theorem applied to a concrete reachable state of the
concrete configuration `stA`. -/
theorem pool_counts_bounded_witness :
    (⟨[], [], 0, 0⟩ : PoolInternals).num_conns +
      (⟨[], [], 0, 0⟩ : PoolInternals).pending_conns ≤ stA.max_size :=
  pool_counts_bounded stA _ Reachable.init

/-- Claim C2 (counterexample): the implication "waiters non-empty implies
idle empty" does not hold at every reachable state.  The slow-path waiter
enqueue of `Pool::run` is a critical section separate from the one in which
`get_idle_connection` observed the idle queue to be empty, so the following
interleaving is a real execution: the caller observes no idle connection
(while the initial replenishment is still pending), the pending connect then
resolves and parks its connection in the idle queue (no waiter exists yet),
and only then does the caller's enqueue section run -- leaving one waiter
queued while one idle connection sits in the queue. -/
theorem waiter_enqueued_while_idle_nonempty :
    Reachable stA ⟨[⟨0, true⟩], [⟨⟨0, 0⟩, 0⟩], 1, 1⟩ ∧
    (⟨[⟨0, true⟩], [⟨⟨0, 0⟩, 0⟩], 1, 1⟩ : PoolInternals).waiters ≠ [] ∧
    (⟨[⟨0, true⟩], [⟨⟨0, 0⟩, 0⟩], 1, 1⟩ : PoolInternals).conns ≠ [] := by
  refine ⟨?_, by decide, by decide⟩
  have h0 : Reachable stA ⟨[], [], 0, 0⟩ := Reachable.init
  have e1 : replenish_idle_connections_locked stA ⟨[], [], 0, 0⟩ = ⟨[], [], 0, 1⟩ := by
    decide
  have h1 : Reachable stA ⟨[], [], 0, 1⟩ :=
    e1 ▸ Reachable.step h0 (Step.replenishStep _)
  have h2 : Reachable stA (put_idle_conn ⟨[], [], 1, 0⟩ ⟨⟨0, 0⟩, 0⟩) :=
    Reachable.step h1 (Step.connectSuccess _ 0 0 (by decide))
  have e2 : put_idle_conn ⟨[], [], 1, 0⟩ ⟨⟨0, 0⟩, 0⟩ = ⟨[], [⟨⟨0, 0⟩, 0⟩], 1, 0⟩ := by
    decide
  rw [e2] at h2
  have e3 : slowPathEnqueue stA ⟨[], [⟨⟨0, 0⟩, 0⟩], 1, 0⟩ ⟨0, true⟩ =
      ⟨[⟨0, true⟩], [⟨⟨0, 0⟩, 0⟩], 1, 1⟩ := by decide
  exact e3 ▸ Reachable.step h2 (Step.enqueueWaiter _ _)

/-- Claim C2 (amended): `put_idle_conn` -- the only operation that adds an
idle record -- preserves the implication "waiters non-empty implies idle
empty": it pushes onto the idle queue only after the waiter queue has
emptied.  (The slow-path waiter enqueue, by contrast, re-checks nothing and
can violate the implication, as the counterexample shows.) -/
theorem put_idle_conn_preserves_waiters_imp_idle_empty (s : PoolInternals) (c : IdleConn)
    (h : s.waiters ≠ [] → s.conns = []) :
    (put_idle_conn s c).waiters ≠ [] → (put_idle_conn s c).conns = [] := by
  intro hw
  show (put_idle_loop s.conns c s.waiters).conns = []
  have hw' : (put_idle_loop s.conns c s.waiters).waiters ≠ [] := hw
  rw [put_idle_loop_conns_of_waiters_ne s.conns c s.waiters hw']
  exact h (put_idle_loop_waiters_ne s.conns c s.waiters hw')

/-- Witness for the amended C2: the preservation theorem applied to a
concrete state with two live waiters and an empty idle queue. -/
theorem put_idle_conn_preserves_waiters_imp_idle_empty_witness :
    ((⟨[⟨0, true⟩, ⟨1, true⟩], [], 1, 0⟩ : PoolInternals).waiters ≠ [] →
      (⟨[⟨0, true⟩, ⟨1, true⟩], [], 1, 0⟩ : PoolInternals).conns = []) ∧
    ((put_idle_conn ⟨[⟨0, true⟩, ⟨1, true⟩], [], 1, 0⟩ ⟨⟨3, 2⟩, 5⟩).waiters ≠ [] →
      (put_idle_conn ⟨[⟨0, true⟩, ⟨1, true⟩], [], 1, 0⟩ ⟨⟨3, 2⟩, 5⟩).conns = []) :=
  ⟨by decide,
    put_idle_conn_preserves_waiters_imp_idle_empty
      ⟨[⟨0, true⟩, ⟨1, true⟩], [], 1, 0⟩ ⟨⟨3, 2⟩, 5⟩ (by decide)⟩

/-- Claim C3: within the `u32`-valid domain
(`num_conns + pending_conns ≤ max_size`, invariant P1), the replenisher
launches exactly `max 0 (min min_idle (idle_now + slots_available) - idle_now)`
connect attempts (integer arithmetic, unset `min_idle` counting as 0, with
`slots_available = max_size - num_conns - pending_conns` and `idle_now` the
idle-queue length), each launch bumping `pending_conns` by one under the
already-held lock. -/
theorem replenish_launch_count (st : Statics) (s : PoolInternals)
    (h : s.num_conns + s.pending_conns ≤ st.max_size) :
    ((toLaunchCount st s : Int) =
      max 0 (min ((st.min_idle.getD 0 : Nat) : Int)
        ((s.conns.length : Int) +
          ((st.max_size : Int) - (s.num_conns : Int) - (s.pending_conns : Int))) -
        (s.conns.length : Int)))
    ∧ (∀ s' : PoolInternals, (addConnectionPending s').pending_conns = s'.pending_conns + 1)
    ∧ (replenish_idle_connections_locked st s).pending_conns =
        s.pending_conns + toLaunchCount st s := by
  refine ⟨?_, fun s' => rfl, ?_⟩
  · unfold toLaunchCount
    generalize st.min_idle.getD 0 = d
    omega
  · rw [replenish_eq]

/-- Witness for C3: at `max_size = 5`, `min_idle = 3`, one idle record,
`num_conns = 2`, `pending_conns = 1`, the replenisher launches exactly two
connects. -/
theorem replenish_launch_count_witness :
    (⟨[], [⟨⟨0, 0⟩, 0⟩], 2, 1⟩ : PoolInternals).num_conns +
        (⟨[], [⟨⟨0, 0⟩, 0⟩], 2, 1⟩ : PoolInternals).pending_conns ≤
      (⟨5, some 3, true, none, none⟩ : Statics).max_size ∧
    (((toLaunchCount ⟨5, some 3, true, none, none⟩ ⟨[], [⟨⟨0, 0⟩, 0⟩], 2, 1⟩ : Nat) : Int) =
      max 0 (min (((⟨5, some 3, true, none, none⟩ : Statics).min_idle.getD 0 : Nat) : Int)
        (((⟨[], [⟨⟨0, 0⟩, 0⟩], 2, 1⟩ : PoolInternals).conns.length : Int) +
          (((⟨5, some 3, true, none, none⟩ : Statics).max_size : Int) -
            ((⟨[], [⟨⟨0, 0⟩, 0⟩], 2, 1⟩ : PoolInternals).num_conns : Int) -
            ((⟨[], [⟨⟨0, 0⟩, 0⟩], 2, 1⟩ : PoolInternals).pending_conns : Int))) -
        ((⟨[], [⟨⟨0, 0⟩, 0⟩], 2, 1⟩ : PoolInternals).conns.length : Int))
    ∧ (∀ s' : PoolInternals, (addConnectionPending s').pending_conns = s'.pending_conns + 1)
    ∧ (replenish_idle_connections_locked ⟨5, some 3, true, none, none⟩
          ⟨[], [⟨⟨0, 0⟩, 0⟩], 2, 1⟩).pending_conns =
        (⟨[], [⟨⟨0, 0⟩, 0⟩], 2, 1⟩ : PoolInternals).pending_conns +
          toLaunchCount ⟨5, some 3, true, none, none⟩ ⟨[], [⟨⟨0, 0⟩, 0⟩], 2, 1⟩) :=
  ⟨by decide,
    replenish_launch_count ⟨5, some 3, true, none, none⟩ ⟨[], [⟨⟨0, 0⟩, 0⟩], 2, 1⟩ (by decide)⟩

theorem put_idle_loop_all_dead (conns : List IdleConn) (c : IdleConn) (ws : List Waiter)
    (h : ∀ w ∈ ws, w.live = false) :
    put_idle_loop conns c ws = ⟨[], conns ++ [c], none, ws.length + 1⟩ := by
  induction ws with
  | nil => rfl
  | cons w ws ih =>
    have hw : w.live = false := h w (List.mem_cons_self w ws)
    have ih' := ih (fun x hx => h x (List.mem_cons_of_mem w hx))
    simp [put_idle_loop, hw, ih']

theorem put_idle_loop_first_live (conns : List IdleConn) (c : IdleConn)
    (pre : List Waiter) (w : Waiter) (rest : List Waiter)
    (hpre : ∀ x ∈ pre, x.live = false) (hw : w.live = true) :
    put_idle_loop conns c (pre ++ w :: rest) = ⟨rest, conns, some w.id, pre.length + 1⟩ := by
  induction pre with
  | nil => simp [put_idle_loop, hw]
  | cons x pre ih =>
    have hx : x.live = false := hpre x (List.mem_cons_self x pre)
    have ih' := ih (fun y hy => hpre y (List.mem_cons_of_mem x hy))
    simp [put_idle_loop, hx, ih']

/-- Claim C7: `put_idle_conn` delivers the returned connection to the first
waiter in FIFO order whose receiver is still live, permanently discarding
every dead waiter it skipped; if no live waiter exists the record is pushed
at the tail of the idle queue and the waiter queue ends empty. -/
theorem put_idle_conn_fifo (s : PoolInternals) (c : IdleConn) :
    ((∀ w ∈ s.waiters, w.live = false) →
      put_idle_conn s c = { s with waiters := [], conns := s.conns ++ [c] }
      ∧ (put_idle_loop s.conns c s.waiters).delivered = none)
    ∧ (∀ (pre : List Waiter) (w : Waiter) (rest : List Waiter),
        s.waiters = pre ++ w :: rest →
        (∀ x ∈ pre, x.live = false) →
        w.live = true →
        put_idle_conn s c = { s with waiters := rest }
        ∧ (put_idle_loop s.conns c s.waiters).delivered = some w.id) := by
  constructor
  · intro h
    unfold put_idle_conn
    rw [put_idle_loop_all_dead s.conns c s.waiters h]
    exact ⟨rfl, rfl⟩
  · intro pre w rest hsplit hpre hw
    unfold put_idle_conn
    rw [hsplit, put_idle_loop_first_live s.conns c pre w rest hpre hw]
    exact ⟨rfl, rfl⟩

/-- Witness for C7: with waiter queue `[dead 0, live 1, live 2]` the record
is delivered to waiter 1, the dead waiter 0 is discarded and waiter 2
remains queued. -/
theorem put_idle_conn_fifo_witness :
    put_idle_conn ⟨[⟨0, false⟩, ⟨1, true⟩, ⟨2, true⟩], [], 3, 0⟩ ⟨⟨9, 0⟩, 5⟩ =
      { (⟨[⟨0, false⟩, ⟨1, true⟩, ⟨2, true⟩], [], 3, 0⟩ : PoolInternals) with
          waiters := [⟨2, true⟩] } ∧
    (put_idle_loop (⟨[⟨0, false⟩, ⟨1, true⟩, ⟨2, true⟩], [], 3, 0⟩ : PoolInternals).conns
        ⟨⟨9, 0⟩, 5⟩
        (⟨[⟨0, false⟩, ⟨1, true⟩, ⟨2, true⟩], [], 3, 0⟩ : PoolInternals).waiters).delivered =
      some 1 :=
  (put_idle_conn_fifo ⟨[⟨0, false⟩, ⟨1, true⟩, ⟨2, true⟩], [], 3, 0⟩ ⟨⟨9, 0⟩, 5⟩).2
    [⟨0, false⟩] ⟨1, true⟩ [⟨2, true⟩] rfl (by decide) rfl

/-- Claim C10: the delivery loop of `put_idle_conn` always terminates, and
on a waiter queue of length `n` it executes at most `n + 1` iterations: each
failed delivery permanently removes one waiter and the loop exits on the
first successful delivery or on the empty queue. -/
theorem put_idle_loop_iteration_bound (conns : List IdleConn) (c : IdleConn)
    (ws : List Waiter) :
    (put_idle_loop conns c ws).iters ≤ ws.length + 1 := by
  induction ws with
  | nil => simp [put_idle_loop]
  | cons w ws ih =>
    by_cases hl : w.live
    · simp [put_idle_loop, hl]
    · simp only [put_idle_loop, hl, Bool.false_eq_true, if_false, List.length_cons]
      omega

theorem reapPredicate_false_iff (st : Statics) (now : Nat) (c : IdleConn) :
    reapPredicate st now c = false ↔
      ((∀ t, st.idle_timeout = some t → now - c.idle_start < t) ∧
        (∀ l, st.max_lifetime = some l → now - c.conn.birth < l)) := by
  unfold reapPredicate
  cases hI : st.idle_timeout <;> cases hL : st.max_lifetime <;>
    simp [decide_eq_true_eq, decide_eq_false_iff_not]

/-- Claim C6: after one reaping step at instant `now`, every surviving idle
record is within its `max_lifetime` and `idle_timeout` bounds (when set),
every dropped record fails at least one of the two bounds, and `num_conns`
is decremented by exactly the number of dropped records (`num_conns` counts
the idle records, so the drop count never exceeds it). -/
theorem reap_step_correct (st : Statics) (s : PoolInternals) (now : Nat)
    (h : (partition2 (reapPredicate st now) s.conns).1.length ≤ s.num_conns) :
    (∀ c ∈ (reap_connections st s now).conns,
      (∀ l, st.max_lifetime = some l → now - c.conn.birth < l) ∧
        (∀ t, st.idle_timeout = some t → now - c.idle_start < t))
    ∧ (∀ c ∈ (partition2 (reapPredicate st now) s.conns).1,
      ¬((∀ l, st.max_lifetime = some l → now - c.conn.birth < l) ∧
        (∀ t, st.idle_timeout = some t → now - c.idle_start < t)))
    ∧ (reap_connections st s now).num_conns +
        (partition2 (reapPredicate st now) s.conns).1.length = s.num_conns := by
  have hconns : (reap_connections st s now).conns =
      List.filter (fun c => !reapPredicate st now c) s.conns := by
    unfold reap_connections partition2
    rw [drop_connections_conns]
  refine ⟨?_, ?_, ?_⟩
  · intro c hc
    rw [hconns] at hc
    have hpred : reapPredicate st now c = false := by
      have := List.of_mem_filter hc
      simpa using this
    have hfr := (reapPredicate_false_iff st now c).mp hpred
    exact ⟨hfr.2, hfr.1⟩
  · intro c hc hcontra
    have hpred : reapPredicate st now c = true := List.of_mem_filter hc
    have hfalse : reapPredicate st now c = false :=
      (reapPredicate_false_iff st now c).mpr ⟨hcontra.2, hcontra.1⟩
    rw [hfalse] at hpred
    exact Bool.false_ne_true hpred
  · unfold reap_connections
    rw [drop_connections_num]
    show s.num_conns - (partition2 (reapPredicate st now) s.conns).1.length +
      (partition2 (reapPredicate st now) s.conns).1.length = s.num_conns
    omega

/-- Witness for C6: at `max_lifetime = 50`, `idle_timeout = 100`, the record
born at 0 is dropped at instant 100 and the record born at 80 survives, with
`num_conns` falling from 2 to 1. -/
theorem reap_step_correct_witness :
    (partition2 (reapPredicate ⟨3, none, true, some 50, some 100⟩ 100)
        (⟨[], [⟨⟨0, 0⟩, 60⟩, ⟨⟨1, 80⟩, 90⟩], 2, 0⟩ : PoolInternals).conns).1.length ≤
      (⟨[], [⟨⟨0, 0⟩, 60⟩, ⟨⟨1, 80⟩, 90⟩], 2, 0⟩ : PoolInternals).num_conns ∧
    ((∀ c ∈ (reap_connections ⟨3, none, true, some 50, some 100⟩
          ⟨[], [⟨⟨0, 0⟩, 60⟩, ⟨⟨1, 80⟩, 90⟩], 2, 0⟩ 100).conns,
        (∀ l, (⟨3, none, true, some 50, some 100⟩ : Statics).max_lifetime = some l →
          100 - c.conn.birth < l) ∧
          (∀ t, (⟨3, none, true, some 50, some 100⟩ : Statics).idle_timeout = some t →
            100 - c.idle_start < t))
      ∧ (∀ c ∈ (partition2 (reapPredicate ⟨3, none, true, some 50, some 100⟩ 100)
            (⟨[], [⟨⟨0, 0⟩, 60⟩, ⟨⟨1, 80⟩, 90⟩], 2, 0⟩ : PoolInternals).conns).1,
          ¬((∀ l, (⟨3, none, true, some 50, some 100⟩ : Statics).max_lifetime = some l →
              100 - c.conn.birth < l) ∧
            (∀ t, (⟨3, none, true, some 50, some 100⟩ : Statics).idle_timeout = some t →
              100 - c.idle_start < t)))
      ∧ (reap_connections ⟨3, none, true, some 50, some 100⟩
            ⟨[], [⟨⟨0, 0⟩, 60⟩, ⟨⟨1, 80⟩, 90⟩], 2, 0⟩ 100).num_conns +
          (partition2 (reapPredicate ⟨3, none, true, some 50, some 100⟩ 100)
            (⟨[], [⟨⟨0, 0⟩, 60⟩, ⟨⟨1, 80⟩, 90⟩], 2, 0⟩ : PoolInternals).conns).1.length =
        (⟨[], [⟨⟨0, 0⟩, 60⟩, ⟨⟨1, 80⟩, 90⟩], 2, 0⟩ : PoolInternals).num_conns) :=
  ⟨by decide,
    reap_step_correct ⟨3, none, true, some 50, some 100⟩
      ⟨[], [⟨⟨0, 0⟩, 60⟩, ⟨⟨1, 80⟩, 90⟩], 2, 0⟩ 100 (by decide)⟩

/-- Claim C4 fails on the code: with `min_idle = 1` and a single idle record
that has exceeded `idle_timeout`, one reaping pass drops it, leaving fewer
than `min(min_idle, idle_len) = 1` idle records -- `reap_connections`
consults only the ages, never `min_idle` (it merely re-triggers
replenishment afterwards, visible here as the risen `pending_conns`). -/
theorem reap_ignores_min_idle :
    (reap_connections ⟨5, some 1, true, none, some 100⟩ ⟨[], [⟨⟨0, 0⟩, 0⟩], 1, 0⟩ 100).conns.length <
      min ((⟨5, some 1, true, none, some 100⟩ : Statics).min_idle.getD 0)
        ((⟨[], [⟨⟨0, 0⟩, 0⟩], 1, 0⟩ : PoolInternals).conns.length) ∧
    (reap_connections ⟨5, some 1, true, none, some 100⟩
        ⟨[], [⟨⟨0, 0⟩, 0⟩], 1, 0⟩ 100).pending_conns = 1 := by
  decide

/-- Claim C5 fails on the code: the return path of `Pool::run` consults only
`has_broken`, never `max_lifetime`.  A connection born at 0 returned at
instant 10 under `max_lifetime = 10` -- i.e. with age at least the maximum
lifetime -- is pushed back into the idle queue with `num_conns` unchanged,
instead of being discarded with a decrement. -/
theorem return_path_reshelves_expired_connection :
    10 - (⟨7, 0⟩ : Conn).birth ≥ (10 : Nat) ∧
    (run_complete ⟨5, none, true, some 10, none⟩ ⟨[], [], 1, 0⟩ false 10
        (Sum.inl ((0 : Nat), (⟨7, 0⟩ : Conn)) : (Nat × Conn) ⊕ (Nat × Conn))).1.1.conns =
      [⟨⟨7, 0⟩, 10⟩] ∧
    (run_complete ⟨5, none, true, some 10, none⟩ ⟨[], [], 1, 0⟩ false 10
        (Sum.inl ((0 : Nat), (⟨7, 0⟩ : Conn)) : (Nat × Conn) ⊕ (Nat × Conn))).1.1.num_conns =
      (⟨[], [], 1, 0⟩ : PoolInternals).num_conns := by
  decide

theorem get_idle_connection_step_cons (st : Statics) (s : PoolInternals) (c : IdleConn)
    (rest : List IdleConn) (valid : Bool) (h : s.conns = c :: rest) :
    get_idle_connection_step st s valid =
      checkoutTest st (maybeReplenish st { s with conns := rest }) c valid := by
  unfold get_idle_connection_step
  simp only [h]

/-- Claim C8: with `test_on_check_out` set and an idle head available, an
`is_valid` failure makes checkout dispose of the connection (`num_conns`
drops by one; if the population then sits below `max_size`, replenishment
has been scheduled, so idle plus pending covers `min_idle`) and retry from
the top instead of surfacing the error, while an `is_valid` success returns
the popped record itself, preserving its original birth instant. -/
theorem checkout_validity_handling (st : Statics) (s : PoolInternals) (c : IdleConn)
    (rest : List IdleConn) (valid : Bool)
    (htest : st.test_on_check_out = true)
    (hconns : s.conns = c :: rest)
    (hnum : 1 ≤ s.num_conns) :
    (valid = true →
      (get_idle_connection_step st s valid).2 = CheckoutOutcome.success c.conn)
    ∧ (valid = false →
      (get_idle_connection_step st s valid).2 = CheckoutOutcome.retry
      ∧ (get_idle_connection_step st s valid).1.num_conns + 1 = s.num_conns
      ∧ ((get_idle_connection_step st s valid).1.num_conns +
            (get_idle_connection_step st s valid).1.pending_conns < st.max_size →
          st.min_idle.getD 0 ≤ (get_idle_connection_step st s valid).1.conns.length +
            (get_idle_connection_step st s valid).1.pending_conns)) := by
  rw [get_idle_connection_step_cons st s c rest valid hconns]
  unfold checkoutTest
  rw [htest]
  constructor
  · intro hv
    subst hv
    rfl
  · intro hv
    subst hv
    refine ⟨rfl, ?_, ?_⟩
    · show (drop_connections st (maybeReplenish st { s with conns := rest }) 1).num_conns + 1 =
        s.num_conns
      rw [drop_connections_num, maybeReplenish_num]
      show s.num_conns - 1 + 1 = s.num_conns
      omega
    · show (drop_connections st (maybeReplenish st { s with conns := rest }) 1).num_conns +
          (drop_connections st (maybeReplenish st { s with conns := rest }) 1).pending_conns <
          st.max_size →
        st.min_idle.getD 0 ≤
          (drop_connections st (maybeReplenish st { s with conns := rest }) 1).conns.length +
            (drop_connections st (maybeReplenish st { s with conns := rest }) 1).pending_conns
      unfold drop_connections
      exact maybeReplenish_minidle st _

/-- Witness for C8: concrete invalid checkout at `stA` with one idle record
and one live connection: the outcome is a retry with `num_conns` down to 0
and two connect attempts pending. -/
theorem checkout_validity_handling_witness :
    stA.test_on_check_out = true ∧
    (⟨[], [⟨⟨5, 3⟩, 4⟩], 1, 0⟩ : PoolInternals).conns = ⟨⟨5, 3⟩, 4⟩ :: [] ∧
    1 ≤ (⟨[], [⟨⟨5, 3⟩, 4⟩], 1, 0⟩ : PoolInternals).num_conns ∧
    ((false = true →
      (get_idle_connection_step stA ⟨[], [⟨⟨5, 3⟩, 4⟩], 1, 0⟩ false).2 =
        CheckoutOutcome.success (⟨⟨5, 3⟩, 4⟩ : IdleConn).conn)
    ∧ (false = false →
      (get_idle_connection_step stA ⟨[], [⟨⟨5, 3⟩, 4⟩], 1, 0⟩ false).2 = CheckoutOutcome.retry
      ∧ (get_idle_connection_step stA ⟨[], [⟨⟨5, 3⟩, 4⟩], 1, 0⟩ false).1.num_conns + 1 =
          (⟨[], [⟨⟨5, 3⟩, 4⟩], 1, 0⟩ : PoolInternals).num_conns
      ∧ ((get_idle_connection_step stA ⟨[], [⟨⟨5, 3⟩, 4⟩], 1, 0⟩ false).1.num_conns +
            (get_idle_connection_step stA ⟨[], [⟨⟨5, 3⟩, 4⟩], 1, 0⟩ false).1.pending_conns <
            stA.max_size →
          stA.min_idle.getD 0 ≤
            (get_idle_connection_step stA ⟨[], [⟨⟨5, 3⟩, 4⟩], 1, 0⟩ false).1.conns.length +
              (get_idle_connection_step stA ⟨[], [⟨⟨5, 3⟩, 4⟩], 1, 0⟩ false).1.pending_conns))) :=
  ⟨rfl, rfl, by decide,
    checkout_validity_handling stA ⟨[], [⟨⟨5, 3⟩, 4⟩], 1, 0⟩ ⟨⟨5, 3⟩, 4⟩ [] false rfl rfl
      (by decide)⟩

/-- Claim C9 (counterexample): in the broken branch of the return path the
source binds the future returned by `drop_connections` to `_`, dropping it;
the bookkeeping errors it would carry are therefore discarded, not routed to
the error sink as the claim states. -/
theorem return_path_bookkeeping_errors_discarded :
    (run_complete ⟨5, none, true, some 10, none⟩ ⟨[], [], 1, 0⟩ true 0
        (Sum.inl ((0 : Nat), (⟨7, 0⟩ : Conn)) : (Nat × Conn) ⊕ (Nat × Conn))).1.2 =
      some ErrRoute.discardedFuture ∧
    ErrRoute.discardedFuture ≠ ErrRoute.errorSink := by
  decide

/-- Claim C9 (amended): for every outcome of the user's work function and
every `has_broken` verdict, the caller receives exactly the user's own
result -- `Ok(t)` or the user error wrapped as `RunError::User` -- and the
return-path bookkeeping never replaces or suppresses it (bookkeeping errors
in the broken branch are silently discarded with the dropped disposal
future rather than routed to the error sink). -/
theorem run_surfaces_user_result (T E : Type) (st : Statics) (s : PoolInternals)
    (broken : Bool) (now : Nat) (r : (T × Conn) ⊕ (E × Conn)) :
    (run_complete st s broken now r).2 =
      (match r with
        | Sum.inl (t, _) => Except.ok t
        | Sum.inr (e, _) => Except.error (RunError.user e)) := by
  rcases r with ⟨t, conn⟩ | ⟨e, conn⟩ <;> rfl

end BB8
